import Mathlib

/-!
Shallow embedding of `src/git_toolbox/git_ops/__methods.py` (branch
reconciliation and staged deletion), together with theorems about its
behaviour.

The repository handle (`git.Repo`) is modelled as a record of the
observations the code makes of it: the local head names, the remote
tracking ref names, the working directory, and oracles describing whether
each delete attempt (soft `-d`, forced `-D`, subprocess `git branch -D`)
succeeds for a given branch name.  Exceptions are modelled with `Except`,
and the side effects performed on the handle are reified as a trace of
`GitOp` values.
-/

namespace GitToolbox

/-- Abstract error kinds raised by the engine (the Python code raises
`git.InvalidGitRepositoryError`, `ValueError`, and propagates fetch
exceptions; these constructors model the distinct failure conditions). -/
inductive Err where
  | noBranches
  | missingInput
  | invalidRepository
  | fetchError
deriving DecidableEq, Repr

/-- Model of a `git.Repo` handle: the data the engine reads from it and
oracles for the outcome of each mutation it can request.
`subprocExit branch` is the exit status of `subprocess.run(["git", "branch", "-D", branch])`. -/
structure Handle where
  heads : List String
  remoteRefs : List String
  workingDir : String
  softOk : String → Bool
  forcedOk : String → Bool
  subprocExit : String → Nat

/-- A delete operation performed while executing `delete_branches`:
`soft b` is `repo.git.branch("-d", b)`, `forced b` is
`repo.git.branch("-D", b)`, and `subproc argv cwd` is a
`subprocess.run(argv, ...)` call; `cwd = none` means the child process
inherits the tool process's current working directory (the Python code
passes no `cwd` argument). -/
inductive GitOp where
  | soft (branch : String)
  | forced (branch : String)
  | subproc (argv : List String) (cwd : Option String)
deriving DecidableEq, Repr

/-- Directory a subprocess call actually runs in: its `cwd` argument if
given, else the parent process's current working directory. -/
def effectiveCwd (parentCwd : String) (cwd : Option String) : String :=
  match cwd with
  | none => parentCwd
  | some d => d

/-- `append_protected_branch(protected_branches, append_branch)`:
`None` arguments model Python `None`; the Python code only tests
`append_branch is None`, so any actual string (the empty string included)
is appended. -/
def append_protected_branch (protected_branches : Option (List String))
    (append_branch : Option String) : List String :=
  let pb : List String :=
    match protected_branches with
    | none => []
    | some l => l
  match append_branch with
  | none => pb
  | some b => pb ++ [b]

/-- `get_local_branches(repo)`: raises when the repository reports zero
local heads, otherwise returns the head names. -/
def get_local_branches (repo : Handle) : Except Err (List String) :=
  if repo.heads.length = 0 then .error Err.noBranches
  else .ok repo.heads

/-- Does the character list start with `origin/`?  (the pattern of the
Python `ref.name.replace("origin/", "")` call). -/
def matchesOrigin : List Char → Bool
  | 'o' :: 'r' :: 'i' :: 'g' :: 'i' :: 'n' :: '/' :: _ => true
  | _ => false

/-- Python `s.replace("origin/", "")`: remove every (left-to-right,
non-overlapping) occurrence of the substring `origin/`. -/
def stripOrigin : List Char → List Char
  | 'o' :: 'r' :: 'i' :: 'g' :: 'i' :: 'n' :: '/' :: rest => stripOrigin rest
  | c :: rest => c :: stripOrigin rest
  | [] => []

/-- `get_remote_branches(repo)`: maps
`ref.name.replace("origin/", "")` over `repo.remotes.origin.refs`. -/
def get_remote_branches (repo : Handle) : List String :=
  repo.remoteRefs.map (fun r => String.mk (stripOrigin r.data))

/-- The spec's reading of the Enumerator: strip only a LEADING `origin/`
from a ref name, leaving the rest unchanged.  Used to compare the spec's
words against `stripOrigin` (the code's behaviour). -/
def stripOriginLeadingSpec (s : String) : String :=
  if matchesOrigin s.data then String.mk (s.data.drop 7) else s

/-- `get_delete_branches(repo, local_branches, remote_branches,
protected_branches)`: sources missing lists from the handle (raising
`missingInput` when neither lists nor a handle are available), then keeps
every local name absent from both the remote list and the protected
list. -/
def get_delete_branches (repo : Option Handle)
    (local_branches remote_branches : Option (List String))
    (protected_branches : List String) : Except Err (List String) :=
  if (local_branches.isNone || remote_branches.isNone) && repo.isNone then
    .error Err.missingInput
  else
    let lbE : Except Err (List String) :=
      match local_branches, repo with
      | some l, _ => .ok l
      | none, some r => get_local_branches r
      | none, none => .error Err.missingInput
    let rbE : Except Err (List String) :=
      match remote_branches, repo with
      | some l, _ => .ok l
      | none, some r => .ok (get_remote_branches r)
      | none, none => .error Err.missingInput
    match lbE, rbE with
    | .ok lb, .ok rb =>
        .ok (lb.filter (fun branch =>
          !(rb.contains branch) && !(protected_branches.contains branch)))
    | .error e, _ => .error e
    | .ok _, .error e => .error e

/-- The argv the subprocess fallback constructs for a branch. -/
def subprocArgv (branch : String) : List String :=
  ["git", "branch", "-D", branch]

/-- The attempt chain `delete_branches` runs for one (non-protected)
branch: soft delete; on failure, if `force`, forced delete; on failure,
the subprocess fallback (which succeeds exactly on exit status zero).
Returns whether the branch ends up recorded as deleted, together with the
operations attempted, in order. -/
def branchAttempt (repo : Handle) (force : Bool) (branch : String) :
    Bool × List GitOp :=
  if repo.softOk branch then (true, [GitOp.soft branch])
  else if force then
    if repo.forcedOk branch then
      (true, [GitOp.soft branch, GitOp.forced branch])
    else
      (repo.subprocExit branch == 0,
       [GitOp.soft branch, GitOp.forced branch,
        GitOp.subproc (subprocArgv branch) none])
  else (false, [GitOp.soft branch])

/-- `delete_branches(repo, branches_to_delete, force, protected_branches)`:
iterates over the candidates in order, skipping protected names, running
the attempt chain for the rest, and accumulating the names recorded as
deleted; also returns the trace of delete operations performed. -/
def delete_branches (repo : Handle) (branches_to_delete : List String)
    (force : Bool) (protected_branches : List String) :
    List String × List GitOp :=
  match branches_to_delete with
  | [] => ([], [])
  | branch :: rest =>
    if protected_branches.contains branch then
      delete_branches repo rest force protected_branches
    else
      let att := branchAttempt repo force branch
      let tl := delete_branches repo rest force protected_branches
      (if att.1 then branch :: tl.1 else tl.1, att.2 ++ tl.2)

/-- Overall success condition of the attempt chain for one branch. -/
def delete_ok (repo : Handle) (force : Bool) (branch : String) : Bool :=
  repo.softOk branch ||
    (force && (repo.forcedOk branch || repo.subprocExit branch == 0))

/-- Result of `clean_branches`: the deleted list (`none` on a dry run,
mirroring the bare `return`), the delete operations performed on the
handle, and the would-delete notices emitted (one per candidate on a dry
run). -/
structure CleanResult where
  deleted : Option (List String)
  ops : List GitOp
  notices : List String
deriving DecidableEq, Repr

/-- `clean_branches(repo, dry_run, force, protected_branches)`: enumerate
local branches (propagating the zero-heads failure), enumerate remote
branches, compute the candidates, then either report the would-delete
notices and return nothing (dry run) or run `delete_branches` and return
its list. -/
def clean_branches (repo : Handle) (dry_run force : Bool)
    (protected_branches : List String) : Except Err CleanResult :=
  match get_local_branches repo with
  | .error e => .error e
  | .ok local_branches =>
    match get_delete_branches none (some local_branches)
        (some (get_remote_branches repo)) protected_branches with
    | .error e => .error e
    | .ok branches_to_delete =>
      if dry_run then .ok ⟨none, [], branches_to_delete⟩
      else
        .ok ⟨some (delete_branches repo branches_to_delete force
                protected_branches).1,
             (delete_branches repo branches_to_delete force
                protected_branches).2, []⟩

/-- `get_repo_obj(repo_path)`: `repoAt` is the repository found at the
path (`none` when the path has no repository metadata, in which case
`git.Repo(path)` raises and the fetch is never reached); `fetchOk` is
whether `repo.git.fetch("--prune")` succeeds.  The second component
records whether a prune-fetch was attempted. -/
def get_repo_obj (repoAt : Option Handle) (fetchOk : Handle → Bool) :
    Except Err Handle × Bool :=
  match repoAt with
  | none => (.error Err.invalidRepository, false)
  | some repo =>
    if fetchOk repo then (.ok repo, true)
    else (.error Err.fetchError, true)

/-! ### Helper lemmas -/

theorem branchAttempt_fst (repo : Handle) (force : Bool) (branch : String) :
    (branchAttempt repo force branch).1 = delete_ok repo force branch := by
  unfold branchAttempt delete_ok
  cases h1 : repo.softOk branch <;> cases force <;>
    cases h2 : repo.forcedOk branch <;> simp

theorem branchAttempt_snd_not_force (repo : Handle) (branch : String) :
    (branchAttempt repo false branch).2 = [GitOp.soft branch] := by
  unfold branchAttempt
  cases h1 : repo.softOk branch <;> simp

theorem mem_delete_branches (repo : Handle) (force : Bool)
    (cands prot : List String) (x : String) :
    x ∈ (delete_branches repo cands force prot).1 ↔
      x ∈ cands ∧ prot.contains x = false ∧ delete_ok repo force x = true := by
  induction cands with
  | nil => simp [delete_branches]
  | cons b rest ih =>
    by_cases hxb : x = b
    · subst hxb
      cases hb : prot.contains x
      · simp only [delete_branches, hb, Bool.false_eq_true, if_false,
          branchAttempt_fst]
        cases hok : delete_ok repo force x
        · simp [ih, hb, hok]
        · simp [hb, hok]
      · simp only [delete_branches, hb, if_true]
        rw [ih]
        constructor
        · rintro ⟨hx, hpx, hok⟩
          rw [hb] at hpx
          exact absurd hpx (by simp)
        · rintro ⟨hx, hpx, hok⟩
          exact absurd hpx (by simp)
    · cases hb : prot.contains b
      · simp only [delete_branches, hb, Bool.false_eq_true, if_false,
          branchAttempt_fst]
        cases hok : delete_ok repo force b <;>
          simp [ih, List.mem_cons, hxb]
      · simp only [delete_branches, hb, if_true]
        rw [ih]
        simp [List.mem_cons, hxb]

theorem delete_branches_sublist (repo : Handle) (force : Bool)
    (cands prot : List String) :
    (delete_branches repo cands force prot).1.Sublist cands := by
  induction cands with
  | nil => simp [delete_branches]
  | cons b rest ih =>
    cases hb : prot.contains b
    · simp only [delete_branches, hb, Bool.false_eq_true, if_false]
      cases hok : (branchAttempt repo force b).1
      · simp only [Bool.false_eq_true, if_false]
        exact ih.cons b
      · simp only [if_true]
        exact ih.cons₂ b
    · simp only [delete_branches, hb, if_true]
      exact ih.cons b

theorem delete_branches_ops_not_force (repo : Handle)
    (cands prot : List String) (op : GitOp) :
    op ∈ (delete_branches repo cands false prot).2 →
      ∃ x, op = GitOp.soft x := by
  induction cands with
  | nil => simp [delete_branches]
  | cons b rest ih =>
    cases hb : prot.contains b
    · simp only [delete_branches, hb, Bool.false_eq_true, if_false,
        branchAttempt_snd_not_force, List.cons_append, List.nil_append,
        List.mem_cons]
      rintro (rfl | hop)
      · exact ⟨b, rfl⟩
      · exact ih hop
    · simp only [delete_branches, hb, if_true]
      exact ih

/-- The characters of the pattern `origin/`. -/
def originChars : List Char := ['o', 'r', 'i', 'g', 'i', 'n', '/']

theorem stripOrigin_origin_append (t : List Char) :
    stripOrigin (originChars ++ t) = stripOrigin t := rfl

theorem stripOrigin_of_matches (s : List Char) (hm : matchesOrigin s = true) :
    stripOrigin s = stripOrigin (s.drop 7) := by
  unfold matchesOrigin at hm
  split at hm
  · rfl
  · cases hm

/-! ### Claim theorems -/

/-- C1: with both branch lists supplied, `get_delete_branches` returns
exactly the names of the local list absent from the remote list and absent
from the protected list, in the local list's order; hence the result is a
sublist of the local list, disjoint from the remote list and from the
protected list, and a protected name is never in the result. -/
theorem spec_C1 (repo : Option Handle) (L R P : List String) :
    get_delete_branches repo (some L) (some R) P =
      .ok (L.filter (fun branch =>
        !(R.contains branch) && !(P.contains branch))) ∧
    ∀ D, get_delete_branches repo (some L) (some R) P = .ok D →
      D.Sublist L ∧ (∀ b ∈ D, b ∈ L ∧ b ∉ R ∧ b ∉ P) ∧ (∀ b ∈ P, b ∉ D) := by
  have h : get_delete_branches repo (some L) (some R) P =
      .ok (L.filter (fun branch =>
        !(R.contains branch) && !(P.contains branch))) := rfl
  refine ⟨h, ?_⟩
  intro D hD
  rw [h] at hD
  cases hD
  refine ⟨List.filter_sublist _, ?_, ?_⟩
  · intro b hbD
    rw [List.mem_filter] at hbD
    obtain ⟨hbL, hcond⟩ := hbD
    simp at hcond
    exact ⟨hbL, hcond.1, hcond.2⟩
  · intro b hbP hbD
    rw [List.mem_filter] at hbD
    obtain ⟨_, hcond⟩ := hbD
    simp at hcond
    exact hcond.2 hbP

/-- C1 witness: the spec's concrete scenario
`L = ["main","feature-x","old-merged"]`, `R = ["main"]`, `P = ["main"]`
yields the candidate list `["feature-x","old-merged"]`, a sublist of `L`
disjoint from `R` and `P`. -/
theorem spec_C1_w :
    get_delete_branches none (some ["main", "feature-x", "old-merged"])
      (some ["main"]) ["main"] = .ok ["feature-x", "old-merged"] ∧
    (["feature-x", "old-merged"] : List String).Sublist
      ["main", "feature-x", "old-merged"] ∧
    (∀ b ∈ (["feature-x", "old-merged"] : List String),
      b ∈ ["main", "feature-x", "old-merged"] ∧ b ∉ ["main"] ∧
        b ∉ (["main"] : List String)) ∧
    (∀ b ∈ (["main"] : List String),
      b ∉ (["feature-x", "old-merged"] : List String)) :=
  ⟨(spec_C1 none ["main", "feature-x", "old-merged"] ["main"] ["main"]).1,
   (spec_C1 none ["main", "feature-x", "old-merged"] ["main"] ["main"]).2
     ["feature-x", "old-merged"] rfl⟩

/-- C2: for a processed candidate, a soft-delete failure with `force=false`
ends the attempt chain (only the soft op appears, not recorded deleted);
with `force=true`, soft failure then forced success records the branch
deleted with no subprocess op; the subprocess fallback appears only after
soft and forced both fail, and its success (exit 0) records the branch
deleted. -/
theorem spec_C2 (repo : Handle) (b : String) :
    (repo.softOk b = false →
      branchAttempt repo false b = (false, [GitOp.soft b])) ∧
    (repo.softOk b = false → repo.forcedOk b = true →
      branchAttempt repo true b = (true, [GitOp.soft b, GitOp.forced b])) ∧
    (repo.softOk b = false → repo.forcedOk b = false →
      (branchAttempt repo true b).2 =
        [GitOp.soft b, GitOp.forced b, GitOp.subproc (subprocArgv b) none] ∧
      (repo.subprocExit b = 0 → (branchAttempt repo true b).1 = true)) ∧
    (∀ cands prot, repo.softOk b = false →
      b ∉ (delete_branches repo cands false prot).1) ∧
    (∀ cands prot, b ∈ cands → prot.contains b = false →
      repo.softOk b = false → repo.forcedOk b = false →
      repo.subprocExit b = 0 →
      b ∈ (delete_branches repo cands true prot).1) ∧
    (∀ cands prot op, op ∈ (delete_branches repo cands false prot).2 →
      ∃ x, op = GitOp.soft x) := by
  refine ⟨?_, ?_, ?_, ?_, ?_, ?_⟩
  · intro hs
    simp [branchAttempt, hs]
  · intro hs hf
    simp [branchAttempt, hs, hf]
  · intro hs hf
    constructor
    · simp [branchAttempt, hs, hf]
    · intro hx
      simp [branchAttempt, hs, hf, hx]
  · intro cands prot hs
    rw [mem_delete_branches]
    rintro ⟨_, _, hok⟩
    simp [delete_ok, hs] at hok
  · intro cands prot hc hp hs hf hx
    rw [mem_delete_branches]
    exact ⟨hc, hp, by simp [delete_ok, hs, hf, hx]⟩
  · intro cands prot op
    exact delete_branches_ops_not_force repo cands prot op

/-- C2 witness: concrete handles exercising each stage of the chain. -/
theorem spec_C2_w :
    branchAttempt ⟨[], [], ".", fun _ => false, fun _ => true, fun _ => 1⟩
      false "b" = (false, [GitOp.soft "b"]) ∧
    branchAttempt ⟨[], [], ".", fun _ => false, fun _ => true, fun _ => 1⟩
      true "b" = (true, [GitOp.soft "b", GitOp.forced "b"]) ∧
    (branchAttempt ⟨[], [], ".", fun _ => false, fun _ => false, fun _ => 0⟩
      true "b").2 =
      [GitOp.soft "b", GitOp.forced "b", GitOp.subproc (subprocArgv "b") none] ∧
    "b" ∉ (delete_branches
      ⟨[], [], ".", fun _ => false, fun _ => false, fun _ => 0⟩
      ["b"] false []).1 ∧
    "b" ∈ (delete_branches
      ⟨[], [], ".", fun _ => false, fun _ => false, fun _ => 0⟩
      ["b"] true []).1 :=
  ⟨(spec_C2 ⟨[], [], ".", fun _ => false, fun _ => true, fun _ => 1⟩ "b").1 rfl,
   (spec_C2 ⟨[], [], ".", fun _ => false, fun _ => true, fun _ => 1⟩ "b").2.1
     rfl rfl,
   ((spec_C2 ⟨[], [], ".", fun _ => false, fun _ => false, fun _ => 0⟩
     "b").2.2.1 rfl rfl).1,
   (spec_C2 ⟨[], [], ".", fun _ => false, fun _ => false, fun _ => 0⟩
     "b").2.2.2.1 ["b"] [] rfl,
   (spec_C2 ⟨[], [], ".", fun _ => false, fun _ => false, fun _ => 0⟩
     "b").2.2.2.2.1 ["b"] [] (by simp) rfl rfl rfl rfl⟩

/-- C3: on a handle with at least one local head, a dry run of
`clean_branches` returns nothing (`deleted = none`, which is distinct from
`some []`, the empty deleted-list), performs no delete operation on the
handle, and emits exactly one would-delete notice per candidate, in
order. -/
theorem spec_C3 (repo : Handle) (force : Bool) (prot : List String)
    (hh : repo.heads ≠ []) :
    clean_branches repo true force prot =
      .ok ⟨none, [],
        repo.heads.filter (fun branch =>
          !((get_remote_branches repo).contains branch) &&
            !(prot.contains branch))⟩ ∧
    (none : Option (List String)) ≠ some [] := by
  constructor
  · have hl : get_local_branches repo = .ok repo.heads := by
      unfold get_local_branches
      rw [if_neg]
      intro h0
      exact hh (List.length_eq_zero.mp h0)
    unfold clean_branches
    rw [hl]
    rfl
  · simp

/-- C3 witness: a handle with heads `["main", "feat"]` and remote ref
`origin/main`; the dry run returns nothing and notices exactly
`["feat"]`. -/
theorem spec_C3_w :
    clean_branches ⟨["main", "feat"], ["origin/main"], ".",
        fun _ => true, fun _ => true, fun _ => 0⟩ true false ["main"] =
      .ok ⟨none, [], ["feat"]⟩ ∧
    (none : Option (List String)) ≠ some [] :=
  spec_C3 ⟨["main", "feat"], ["origin/main"], ".",
    fun _ => true, fun _ => true, fun _ => 0⟩ false ["main"] (by simp)

/-- C4 counterexample: the code's normalization removes EVERY occurrence of
`origin/` from a tracking ref name, not only the leading remote prefix:
on the ref `origin/origin/feature` (remote branch named `origin/feature`)
the code yields `feature`, while stripping only the leading prefix yields
`origin/feature`. -/
theorem spec_C4_cex :
    get_remote_branches ⟨[], ["origin/origin/feature"], ".",
        fun _ => false, fun _ => false, fun _ => 1⟩ = ["feature"] ∧
    stripOriginLeadingSpec "origin/origin/feature" = "origin/feature" ∧
    ("feature" : String) ≠ "origin/feature" := by
  refine ⟨by decide, by decide, by decide⟩

/-- C4 (amended): `get_remote_branches` maps Python
`ref.name.replace("origin/", "")` over the tracking refs, which removes
every occurrence of the substring `origin/` (the remote name is hardcoded
as `origin`); a leading `origin/` is always removed, and whenever the
remainder contains no further occurrence the result coincides with
stripping only the leading remote prefix. -/
theorem spec_C4 (repo : Handle) (t : List Char) (r : String) :
    get_remote_branches repo =
      repo.remoteRefs.map (fun ref => String.mk (stripOrigin ref.data)) ∧
    stripOrigin (originChars ++ t) = stripOrigin t ∧
    (matchesOrigin r.data = true →
      stripOrigin (r.data.drop 7) = r.data.drop 7 →
      String.mk (stripOrigin r.data) = stripOriginLeadingSpec r) := by
  refine ⟨rfl, stripOrigin_origin_append t, ?_⟩
  intro hm hrest
  unfold stripOriginLeadingSpec
  rw [if_pos hm]
  rw [stripOrigin_of_matches r.data hm, hrest]

/-- C4 witness: on `origin/feature` (no further occurrence) the code's
result and the leading-strip agree. -/
theorem spec_C4_w :
    get_remote_branches ⟨[], ["origin/feature"], ".",
        fun _ => false, fun _ => false, fun _ => 1⟩ =
      [String.mk (stripOrigin "origin/feature".data)] ∧
    stripOrigin (originChars ++ "feature".data) = stripOrigin "feature".data ∧
    String.mk (stripOrigin "origin/feature".data) =
      stripOriginLeadingSpec "origin/feature" :=
  ⟨(spec_C4 ⟨[], ["origin/feature"], ".",
      fun _ => false, fun _ => false, fun _ => 1⟩ "feature".data
      "origin/feature").1,
   (spec_C4 ⟨[], ["origin/feature"], ".",
      fun _ => false, fun _ => false, fun _ => 1⟩ "feature".data
      "origin/feature").2.1,
   (spec_C4 ⟨[], ["origin/feature"], ".",
      fun _ => false, fun _ => false, fun _ => 1⟩ "feature".data
      "origin/feature").2.2 (by decide) (by decide)⟩

/-- C5 counterexample: the code only tests `append_branch is None`, so the
EMPTY string is appended rather than leaving the list unchanged, refuting
"returns `set` unchanged when `name` is empty". -/
theorem spec_C5_cex :
    append_protected_branch (some ["main"]) (some "") = ["main", ""] ∧
    append_protected_branch (some ["main"]) (some "") ≠ ["main"] := by
  refine ⟨rfl, by decide⟩

/-- C5 (amended): `append_protected_branch` returns the list unchanged
when the name is absent (`None`), and otherwise — including for the empty
string — returns the list with the name appended at the end; a `None` list
is treated as empty; the returned value always contains the appended name,
and appending a duplicate never changes membership. -/
theorem spec_C5 (pb : List String) (name x : String) :
    append_protected_branch (some pb) none = pb ∧
    append_protected_branch none none = [] ∧
    append_protected_branch none (some name) = [name] ∧
    append_protected_branch (some pb) (some name) = pb ++ [name] ∧
    (x ∈ append_protected_branch (some pb) (some name) ↔
      x ∈ pb ∨ x = name) ∧
    (x ∈ append_protected_branch
        (some (append_protected_branch (some pb) (some name))) (some name) ↔
      x ∈ append_protected_branch (some pb) (some name)) := by
  refine ⟨rfl, rfl, rfl, rfl, ?_, ?_⟩
  · simp [append_protected_branch]
  · simp only [append_protected_branch, List.mem_append,
      List.mem_singleton]
    tauto

/-- C6: `get_local_branches` fails with the no-branches error exactly when
the handle reports zero local heads, otherwise returns the head names; and
`clean_branches` propagates that failure before any reconciliation or
deletion. -/
theorem spec_C6 (repo : Handle) :
    (get_local_branches repo = .error Err.noBranches ↔ repo.heads = []) ∧
    (repo.heads ≠ [] → get_local_branches repo = .ok repo.heads) ∧
    (repo.heads = [] → ∀ dr f prot,
      clean_branches repo dr f prot = .error Err.noBranches) := by
  refine ⟨?_, ?_, ?_⟩
  · unfold get_local_branches
    by_cases h0 : repo.heads.length = 0
    · rw [if_pos h0]
      simp [List.length_eq_zero.mp h0]
    · rw [if_neg h0]
      constructor
      · intro h
        cases h
      · intro h
        rw [h] at h0
        simp at h0
  · intro hh
    unfold get_local_branches
    rw [if_neg]
    intro h0
    exact hh (List.length_eq_zero.mp h0)
  · intro hh dr f prot
    have hl : get_local_branches repo = .error Err.noBranches := by
      unfold get_local_branches
      rw [if_pos (by rw [hh]; rfl)]
    unfold clean_branches
    rw [hl]

/-- C6 witness: a handle with zero heads fails with the no-branches error,
from `get_local_branches` and from `clean_branches`; a handle with heads
returns them. -/
theorem spec_C6_w :
    get_local_branches ⟨[], [], ".", fun _ => false, fun _ => false,
      fun _ => 1⟩ = .error Err.noBranches ∧
    clean_branches ⟨[], [], ".", fun _ => false, fun _ => false,
      fun _ => 1⟩ true false [] = .error Err.noBranches ∧
    get_local_branches ⟨["main"], [], ".", fun _ => false, fun _ => false,
      fun _ => 1⟩ = .ok ["main"] :=
  ⟨(spec_C6 ⟨[], [], ".", fun _ => false, fun _ => false,
      fun _ => 1⟩).1.mpr rfl,
   (spec_C6 ⟨[], [], ".", fun _ => false, fun _ => false,
      fun _ => 1⟩).2.2 rfl true false [],
   (spec_C6 ⟨["main"], [], ".", fun _ => false, fun _ => false,
      fun _ => 1⟩).2.1 (by simp)⟩

/-- C7: each branch's outcome under `delete_branches` depends only on its
own attempt results — membership in the deleted list is characterized
pointwise, so with `force=false` a processed branch `b` whose soft delete
succeeds is reported deleted while a branch `a` whose soft delete fails is
not, in any candidate list and any order. -/
theorem spec_C7 (repo : Handle) (cands prot : List String) (a b : String)
    (hb : b ∈ cands) (hbp : prot.contains b = false)
    (ha : repo.softOk a = false) (hbs : repo.softOk b = true) :
    b ∈ (delete_branches repo cands false prot).1 ∧
    a ∉ (delete_branches repo cands false prot).1 ∧
    (∀ x, x ∈ (delete_branches repo cands false prot).1 ↔
      x ∈ cands ∧ prot.contains x = false ∧ repo.softOk x = true) := by
  have hch : ∀ x, delete_ok repo false x = repo.softOk x := by
    intro x
    simp [delete_ok]
  refine ⟨?_, ?_, ?_⟩
  · rw [mem_delete_branches]
    exact ⟨hb, hbp, by rw [hch]; exact hbs⟩
  · rw [mem_delete_branches]
    rintro ⟨_, _, hok⟩
    rw [hch, ha] at hok
    cases hok
  · intro x
    rw [mem_delete_branches, hch]

/-- C7 witness: candidates `["a", "b"]` (and reversed `["b", "a"]`) where
only `b`'s soft delete succeeds: `b` is deleted, `a` is not, in both
orders. -/
theorem spec_C7_w :
    "b" ∈ (delete_branches ⟨["a", "b"], [], ".", fun s => s == "b",
      fun _ => false, fun _ => 1⟩ ["a", "b"] false []).1 ∧
    "a" ∉ (delete_branches ⟨["a", "b"], [], ".", fun s => s == "b",
      fun _ => false, fun _ => 1⟩ ["a", "b"] false []).1 ∧
    "b" ∈ (delete_branches ⟨["a", "b"], [], ".", fun s => s == "b",
      fun _ => false, fun _ => 1⟩ ["b", "a"] false []).1 ∧
    "a" ∉ (delete_branches ⟨["a", "b"], [], ".", fun s => s == "b",
      fun _ => false, fun _ => 1⟩ ["b", "a"] false []).1 :=
  ⟨(spec_C7 ⟨["a", "b"], [], ".", fun s => s == "b", fun _ => false,
      fun _ => 1⟩ ["a", "b"] [] "a" "b" (by simp) rfl rfl rfl).1,
   (spec_C7 ⟨["a", "b"], [], ".", fun s => s == "b", fun _ => false,
      fun _ => 1⟩ ["a", "b"] [] "a" "b" (by simp) rfl rfl rfl).2.1,
   (spec_C7 ⟨["a", "b"], [], ".", fun s => s == "b", fun _ => false,
      fun _ => 1⟩ ["b", "a"] [] "a" "b" (by simp) rfl rfl rfl).1,
   (spec_C7 ⟨["a", "b"], [], ".", fun s => s == "b", fun _ => false,
      fun _ => 1⟩ ["b", "a"] [] "a" "b" (by simp) rfl rfl rfl).2.1⟩

/-- C8: `get_repo_obj` fails with the invalid-repository error when no
repository exists at the path, attempting no prune-fetch; when a
repository exists it attempts the prune-fetch and either returns the
handle (fetch succeeded) or propagates the fetch error — a fetch failure
is never swallowed. -/
theorem spec_C8 (repoAt : Option Handle) (fetchOk : Handle → Bool) :
    (repoAt = none →
      get_repo_obj repoAt fetchOk = (.error Err.invalidRepository, false)) ∧
    (∀ r, repoAt = some r → fetchOk r = true →
      get_repo_obj repoAt fetchOk = (.ok r, true)) ∧
    (∀ r, repoAt = some r → fetchOk r = false →
      get_repo_obj repoAt fetchOk = (.error Err.fetchError, true)) := by
  refine ⟨?_, ?_, ?_⟩
  · intro h
    rw [h]
    rfl
  · intro r h hf
    rw [h]
    simp [get_repo_obj, hf]
  · intro r h hf
    rw [h]
    simp [get_repo_obj, hf]

/-- C8 witness: no repository at the path gives the invalid-repository
error with no fetch attempted; a repository with a failing fetch gives the
fetch error with a fetch attempted. -/
theorem spec_C8_w :
    get_repo_obj none (fun _ => true) = (.error Err.invalidRepository, false) ∧
    get_repo_obj (some ⟨["main"], [], ".", fun _ => true, fun _ => true,
      fun _ => 0⟩) (fun _ => false) = (.error Err.fetchError, true) ∧
    get_repo_obj (some ⟨["main"], [], ".", fun _ => true, fun _ => true,
      fun _ => 0⟩) (fun _ => true) =
      (.ok ⟨["main"], [], ".", fun _ => true, fun _ => true,
        fun _ => 0⟩, true) :=
  ⟨(spec_C8 none (fun _ => true)).1 rfl,
   (spec_C8 (some ⟨["main"], [], ".", fun _ => true, fun _ => true,
      fun _ => 0⟩) (fun _ => false)).2.2 _ rfl rfl,
   (spec_C8 (some ⟨["main"], [], ".", fun _ => true, fun _ => true,
      fun _ => 0⟩) (fun _ => true)).2.1 _ rfl rfl⟩

/-- C9: evaluation at the failing input.  When the subprocess fallback is
reached, the code invokes `["git", "branch", "-D", b]` with NO working
directory argument (`cwd = none`), so the child runs in the tool process's
inherited current working directory — here `/elsewhere`, not the
repository's working directory `/repo`; success is recorded exactly on
exit status zero. -/
theorem spec_C9_bug :
    (delete_branches ⟨["b"], [], "/repo", fun _ => false, fun _ => false,
        fun _ => 1⟩ ["b"] true []).2 =
      [GitOp.soft "b", GitOp.forced "b",
       GitOp.subproc ["git", "branch", "-D", "b"] none] ∧
    effectiveCwd "/elsewhere" none = "/elsewhere" ∧
    Handle.workingDir ⟨["b"], [], "/repo", fun _ => false, fun _ => false,
      fun _ => 1⟩ = "/repo" ∧
    ("/elsewhere" : String) ≠ "/repo" ∧
    (delete_branches ⟨["b"], [], "/repo", fun _ => false, fun _ => false,
        fun _ => 0⟩ ["b"] true []).1 = ["b"] ∧
    (delete_branches ⟨["b"], [], "/repo", fun _ => false, fun _ => false,
        fun _ => 1⟩ ["b"] true []).1 = [] := by
  refine ⟨rfl, rfl, rfl, by decide, rfl, rfl⟩

/-- C10 counterexample: a candidate list with a duplicate produces a
deleted list in which that candidate appears twice, refuting
"each candidate appears at most once". -/
theorem spec_C10_cex :
    (delete_branches ⟨["a", "a"], [], ".", fun _ => true, fun _ => false,
        fun _ => 1⟩ ["a", "a"] false []).1 = ["a", "a"] ∧
    ¬ (["a", "a"] : List String).Nodup := by
  refine ⟨rfl, by decide⟩

/-- C10 (amended): the list returned by `delete_branches` is a sublist of
the candidate list (so it is in candidate order and duplicate-free
whenever the candidate list is), and it contains no protected name, since
protected candidates are skipped before any delete attempt. -/
theorem spec_C10 (repo : Handle) (cands prot : List String) (force : Bool) :
    (delete_branches repo cands force prot).1.Sublist cands ∧
    (cands.Nodup → (delete_branches repo cands force prot).1.Nodup) ∧
    (∀ b, prot.contains b = true →
      b ∉ (delete_branches repo cands force prot).1) := by
  refine ⟨delete_branches_sublist repo force cands prot, ?_, ?_⟩
  · intro hnd
    exact hnd.sublist (delete_branches_sublist repo force cands prot)
  · intro b hbp
    rw [mem_delete_branches]
    rintro ⟨_, hp, _⟩
    rw [hbp] at hp
    cases hp

/-- C10 witness: concrete run where the protected candidate `main` is
skipped and the result `["feat"]` is a duplicate-free sublist of the
candidates. -/
theorem spec_C10_w :
    (delete_branches ⟨["main", "feat"], [], ".", fun _ => true,
      fun _ => false, fun _ => 1⟩ ["main", "feat"] false ["main"]).1.Sublist
      ["main", "feat"] ∧
    (delete_branches ⟨["main", "feat"], [], ".", fun _ => true,
      fun _ => false, fun _ => 1⟩ ["main", "feat"] false ["main"]).1.Nodup ∧
    "main" ∉ (delete_branches ⟨["main", "feat"], [], ".", fun _ => true,
      fun _ => false, fun _ => 1⟩ ["main", "feat"] false ["main"]).1 :=
  ⟨(spec_C10 ⟨["main", "feat"], [], ".", fun _ => true, fun _ => false,
      fun _ => 1⟩ ["main", "feat"] ["main"] false).1,
   (spec_C10 ⟨["main", "feat"], [], ".", fun _ => true, fun _ => false,
      fun _ => 1⟩ ["main", "feat"] ["main"] false).2.1 (by decide),
   (spec_C10 ⟨["main", "feat"], [], ".", fun _ => true, fun _ => false,
      fun _ => 1⟩ ["main", "feat"] ["main"] false).2.2 "main" rfl⟩

end GitToolbox
